import Mathlib

/-!
# Verification of piln's payment-settlement and reclamation core

Shallow embedding of `database.go` from koshikraj/piln: the Payment and
Object rows, the Settlement Job's atomic claim statement, the per-payment
attempt (pin call, duration computation, settle/upsert write), the result
aggregation, and the Reclamation Job (`eraseEnded`).

The Ledger Store is PostgreSQL; its statements are modelled at the level
of their documented semantics.  For the claim statement this matters: a
data-modifying CTE and the main statement run on one snapshot and cannot
see each other's effects, and a row targeted by both may receive only one
of the two modifications (`claimRowPg`); the sequential give-up-first
reading that the spec describes is kept alongside as `claimRow` for
comparison.  The settle statement marks the payment processed and
upserts/merges the object's lifespan (two different rows/tables, so no
such hazard), and the reclamation queries select and delete rows.
Tables are modelled as lists of rows; timestamps, sizes and durations as
exact rationals; fallible external calls as `Except`/`Option` oracles.
-/

set_option autoImplicit false

/-- Errors are opaque messages (Go `error` values). -/
abbrev Err := String

/-- A row of the `payments` table / the Go `Payment` struct
(`database.go` lines 20-28). -/
structure Payment where
  orderId : String
  cid : String
  paidAt : String
  amount : Int
  processed : Bool
  tries : Int
  givenUp : Bool
deriving DecidableEq, Repr

/-- A row of the `objects` table / the Go `Object` struct
(`database.go` lines 12-18): `pinnedAt` is a timestamp in seconds,
`lifespan` a duration in seconds, both exact rationals.  The free-text
`notes` column plays no role in the jobs and is omitted. -/
structure Object where
  cid : String
  sizegb : ℚ
  pinnedAt : ℚ
  lifespan : ℚ
deriving DecidableEq, Repr

/-- A row returned by the claim statement's `RETURNING order_id, cid, amount`
(the anonymous struct in `processPayments`, `database.go` lines 73-77). -/
structure AttemptRow where
  orderId : String
  cid : String
  amount : Int
deriving DecidableEq, Repr

/-- The `giveup` CTE of the claim statement (`database.go` lines 79-83):
`UPDATE payments SET given_up = true, processed = true WHERE tries > 5`,
applied to a single row. -/
def giveupRow (p : Payment) : Payment :=
  if p.tries > 5 then { p with givenUp := true, processed := true } else p

/-- The sequential give-up-first reading of the claim statement: apply the
`giveup` CTE to the row, then
`UPDATE payments SET tries = tries + 1 WHERE NOT processed
RETURNING order_id, cid, amount` on the result.  This is the contract the
spec's `claimUnprocessedPayments` describes (give-up marking before, and
visible to, the increment-and-select); PostgreSQL does NOT guarantee this
sequencing for the statement at `database.go` lines 78-88 — see
`claimRowPg` for the faithful semantics.  It is kept because every flag
update it performs is a composition of the statement's sub-updates
(`giveupRow`, the tries increment), which is all the invariant claims
need. -/
def claimRow (p : Payment) : Payment × Option AttemptRow :=
  let q := giveupRow p
  if q.processed then (q, none)
  else ({ q with tries := q.tries + 1 }, some ⟨q.orderId, q.cid, q.amount⟩)

/-- Effect on one row of the claim statement (`database.go` lines 78-88)
under PostgreSQL's documented semantics for data-modifying CTEs: the
`giveup` CTE and the main `UPDATE ... WHERE NOT processed RETURNING ...`
are executed against ONE statement snapshot and cannot see each other's
effects, so both target sets are decided by the row's snapshot values; a
row targeted by both (`tries > 5` and `processed = false` in the
snapshot) would be modified twice in one statement, which is unsupported:
only one of the two modifications takes place, and which one is
unpredictable (in practice the unreferenced CTE runs after the main
query, so the main update's increment is the one applied and the give-up
is skipped).  `mainWins p` resolves that same-row conflict for row `p`;
the attempt set contains exactly the rows the main UPDATE modified. -/
def claimRowPg (mainWins : Payment → Bool) (p : Payment) : Payment × Option AttemptRow :=
  if p.processed then
    (if p.tries > 5 then { p with givenUp := true, processed := true } else p, none)
  else if p.tries > 5 then
    if mainWins p then
      ({ p with tries := p.tries + 1 }, some ⟨p.orderId, p.cid, p.amount⟩)
    else
      ({ p with givenUp := true, processed := true }, none)
  else
    ({ p with tries := p.tries + 1 }, some ⟨p.orderId, p.cid, p.amount⟩)

/-- The claim statement of `processPayments` over the whole `payments`
table under the PostgreSQL semantics of `claimRowPg`: the updated table
together with the attempt set for this invocation.  Pin calls and
settlement writes are issued exactly for members of the attempt set (the
`for _, payment := range payments` loop). -/
def claimStepPg (mainWins : Payment → Bool) (table : List Payment) :
    List Payment × List AttemptRow :=
  (table.map (fun p => (claimRowPg mainWins p).1),
   table.filterMap (fun p => (claimRowPg mainWins p).2))

/-- If the mapped keys of a list are pairwise distinct, the key function is
injective on the list's members. -/
theorem nodup_map_eq {α β : Type} {f : α → β} {l : List α}
    (h : (l.map f).Nodup) {a b : α} (ha : a ∈ l) (hb : b ∈ l)
    (hf : f a = f b) : a = b := by
  induction l with
  | nil => cases ha
  | cons x t ih =>
    simp only [List.map_cons, List.nodup_cons] at h
    rcases List.mem_cons.mp ha with rfl | ha₁
    · rcases List.mem_cons.mp hb with rfl | hb₁
      · rfl
      · exact absurd (hf ▸ List.mem_map_of_mem f hb₁) h.1
    · rcases List.mem_cons.mp hb with rfl | hb₁
      · exact absurd (hf ▸ List.mem_map_of_mem f ha₁) h.1
      · exact ih h.2 ha₁ hb₁

/-- C1 (code bug): under PostgreSQL's snapshot semantics for data-modifying
CTEs the give-up marking of `database.go` lines 78-88 is NOT applied
before, or visibly to, the increment-and-select.  With the practical
execution order (the unreferenced `giveup` CTE runs after the main query,
and its second modification of an already-updated row is skipped), an
unprocessed payment with `tries = 6` is incremented to 7, returned in the
attempt set — so a pin call IS made for it — and is left with
`processed = false` and `givenUp = false`, contradicting the claim that it
is marked `processed = givenUp = true` and excluded from the attempt set. -/
theorem claim_exhausted_payment_still_attempted :
    (claimStepPg (fun _ => true) [⟨"o6", "c6", "t", 40, false, 6, false⟩]).2
      = [⟨"o6", "c6", 40⟩]
    ∧ (claimRowPg (fun _ => true) ⟨"o6", "c6", "t", 40, false, 6, false⟩).1.processed = false
    ∧ (claimRowPg (fun _ => true) ⟨"o6", "c6", "t", 40, false, 6, false⟩).1.givenUp = false
    ∧ (claimRowPg (fun _ => true) ⟨"o6", "c6", "t", 40, false, 6, false⟩).1.tries = 7 := by
  refine ⟨?_, ?_, ?_, ?_⟩ <;> decide

/-- Modelled from the spec: the global settings struct `s` declaring the
`PriceGB` configuration constant lives outside the provided sources, so
per the spec `pricePerGB` is a numeric configuration constant and
`pricePerGB / 24` an exact division; prices, sizes and amounts are
modelled as exact rationals.  Floating-point arithmetic is modelled
exactly, except that a float division by zero yields a non-finite value
(Inf/NaN), rendered here as `none`. -/
def fdiv (x y : ℚ) : Option ℚ :=
  if y = 0 then none else some (x / y)

/-- Go's conversion of a float to an integer type (here the conversion to
`time.Duration` in `database.go` lines 107-109) truncates toward zero. -/
def ratTrunc (x : ℚ) : ℤ :=
  if 0 ≤ x then ⌊x⌋ else ⌈x⌉

/-- The raw float expression `float64(amount) / float64(s.PriceGB/24) / sizegb`
(`database.go` line 108). -/
def durationRatio (amount priceGB sizegb : ℚ) : Option ℚ :=
  (fdiv amount (priceGB / 24)).bind (fun t => fdiv t sizegb)

/-- The number of whole hours in the computed extension:
`duration = time.Hour * time.Duration(float64(amount)/float64(s.PriceGB/24)/sizegb)`
converts the float to an integer (truncating) before scaling by `time.Hour`. -/
def writtenHours (amount priceGB sizegb : ℚ) : Option ℤ :=
  (durationRatio amount priceGB sizegb).map ratTrunc

/-- The value bound to the `secs` argument of `make_interval` in the settle
statement: `duration.Seconds()` (`database.go` line 121). -/
def writtenSecs (amount priceGB sizegb : ℚ) : Option ℤ :=
  (writtenHours amount priceGB sizegb).map (fun h => h * 3600)

/-- Arguments of the pin call issued by the goroutine of one attempt-set
member (`database.go` lines 98-101): the cid is the closure parameter
`cid`, but the amount in the requested size is read from `payment.Amount`,
where `payment` is the range variable of the enclosing loop, shared by all
iterations; `captured` is the value that shared variable holds when the
goroutine happens to execute the pin call. -/
def pinCallArgs (member captured : AttemptRow) (priceGB : ℚ) : String × ℚ :=
  (member.cid, (captured.amount : ℚ) / priceGB)

/-- What one settlement attempt does after the pin call: either report the
pin error to the jobs channel, or issue the settle statement with the
computed duration (`database.go` lines 98-123). -/
inductive AttemptAction where
  | reportError (e : Err)
  | settleWrite (orderId cid : String) (sizegb : ℚ) (durSecs : Option ℤ)
deriving DecidableEq, Repr

/-- Whether the attempt stopped with an error before the settle write. -/
def AttemptAction.isError : AttemptAction → Bool
  | .reportError _ => true
  | .settleWrite _ _ _ _ => false

/-- One settlement attempt (the goroutine body, `database.go` lines 95-124):
call pin, on failure report the error, on success compute the duration
from the member's own amount and issue the settle write.  There is no
validation between the pin result and the write. -/
def runAttempt (pinF : String → ℚ → Except Err ℚ) (priceGB : ℚ)
    (member captured : AttemptRow) : AttemptAction :=
  match pinF (pinCallArgs member captured priceGB).1 (pinCallArgs member captured priceGB).2 with
  | .error e => .reportError e
  | .ok sizegb =>
      .settleWrite member.orderId member.cid sizegb
        (writtenSecs (member.amount : ℚ) priceGB sizegb)

/-- Outcome of one `processPayments` invocation as seen by its caller. -/
inductive JobOutcome where
  | ok
  | fail (e : Err)
  | timeout
deriving DecidableEq, Repr

/-- First non-nil error among the results received on the jobs channel. -/
def firstError : List (Option Err) → Option Err
  | [] => none
  | some e :: _ => some e
  | none :: rest => firstError rest

/-- The collector goroutine plus the 60-minute select (`database.go` lines
127-143): the collector ranges over the `jobs` channel and forwards the
first non-nil error it receives to `anyerr`.  The `jobs` channel is never
closed, so when every received result is nil the range never terminates,
the final send of nil on `anyerr` is unreachable, and the 60-minute timer
wins the select.  `results` is the list of results delivered within the
budget, in arrival order. -/
def aggregateOutcome (results : List (Option Err)) : JobOutcome :=
  match firstError results with
  | some e => .fail e
  | none => .timeout

/-- C2 (code bug): when some attempt reports an error first, that error is
the job outcome, but when every delivered result is a success — including
the empty attempt set — `processPayments` does not return success: the
collector blocks on the never-closed jobs channel and the invocation ends
in the 60-minute timeout error. -/
theorem settlement_all_success_returns_timeout :
    aggregateOutcome [] = JobOutcome.timeout
    ∧ aggregateOutcome [none, none, none] = JobOutcome.timeout
    ∧ aggregateOutcome [none, some "pin failed", none] = JobOutcome.fail "pin failed"
    ∧ JobOutcome.timeout ≠ JobOutcome.ok := by
  refine ⟨rfl, rfl, rfl, ?_⟩
  intro h
  cases h

/-- C3 counterexample: for amount 101, pricePerGB 10, realized size 2 the
exact value of `(a / (p / 24)) / s` is 121.2 hours, but the conversion to
`time.Duration` truncates to whole hours, so the settle statement receives
435600 seconds (121 hours), not 121.2 hours (436320 seconds). -/
theorem written_duration_truncates :
    writtenSecs 101 10 2 = some 435600
    ∧ ((435600 : ℚ) ≠ (101 / (10 / 24) / 2) * 3600) := by
  constructor
  · have h24 : ((10 : ℚ) / 24) ≠ 0 := by norm_num
    have h2 : ((2 : ℚ)) ≠ 0 := by norm_num
    simp only [writtenSecs, writtenHours, durationRatio, fdiv, if_neg h24, if_neg h2,
      Option.bind_some, Option.map_some]
    norm_num [ratTrunc]
  · norm_num

/-- C3 as amended: for every successfully pinned attempt with nonzero
pricePerGB and nonzero realized size, the extension written to the ledger
is the truncation toward zero of `(a / (p / 24)) / s` to whole hours (the
float is converted to `time.Duration` before scaling by `time.Hour`); in
particular the spec scenario a = 100, p = 10, s = 2 writes exactly 120
hours. -/
theorem written_duration_eq_trunc (a p s : ℚ) (hp : p ≠ 0) (hs : s ≠ 0) :
    writtenHours a p s = some (ratTrunc (a / (p / 24) / s))
    ∧ writtenSecs a p s = some (ratTrunc (a / (p / 24) / s) * 3600) := by
  have hp24 : p / 24 ≠ 0 := div_ne_zero hp (by norm_num)
  constructor
  · simp [writtenHours, durationRatio, fdiv, hp24, hs]
  · simp [writtenSecs, writtenHours, durationRatio, fdiv, hp24, hs]

/-- Witness for the amended C3 at the spec scenario. -/
theorem written_duration_eq_trunc_witness :
    ((10 : ℚ) ≠ 0) ∧ ((2 : ℚ) ≠ 0) ∧ writtenHours 100 10 2 = some 120 := by
  refine ⟨by norm_num, by norm_num, ?_⟩
  have h := (written_duration_eq_trunc 100 10 2 (by norm_num) (by norm_num)).1
  rw [h]
  norm_num [ratTrunc]

/-- C5 (code bug): the requested size passed to pin is derived from the
amount held by the shared range variable at execution time, not from the
member being settled.  With members of amounts 100 and 7 and pricePerGB
10, the goroutine of the amount-100 member that runs after the loop has
moved on to the amount-7 member requests size 0.7 instead of 10. -/
theorem pin_uses_captured_loop_amount :
    pinCallArgs ⟨"o1", "c1", 100⟩ ⟨"o2", "c2", 7⟩ 10 = ("c1", 7 / 10)
    ∧ ((7 : ℚ) / 10 ≠ 100 / 10) := by
  constructor
  · norm_num [pinCallArgs]
  · norm_num

/-- C8 (code bug): when pin reports a realized size of zero, the attempt
does not fail; the duration computation divides by zero (a non-finite
float value) and the settle write is still issued with it. -/
theorem attempt_zero_size_still_writes :
    runAttempt (fun _ _ => Except.ok 0) 10 ⟨"o1", "c1", 100⟩ ⟨"o1", "c1", 100⟩
      = AttemptAction.settleWrite "o1" "c1" 0 none
    ∧ (runAttempt (fun _ _ => Except.ok 0) 10
        ⟨"o1", "c1", 100⟩ ⟨"o1", "c1", 100⟩).isError = false := by
  have h24 : ((10 : ℚ) / 24) ≠ 0 := by norm_num
  have hz : runAttempt (fun _ _ => Except.ok 0) 10 ⟨"o1", "c1", 100⟩ ⟨"o1", "c1", 100⟩
      = AttemptAction.settleWrite "o1" "c1" 0 none := by
    simp [runAttempt, pinCallArgs, writtenSecs, writtenHours, durationRatio, fdiv, h24]
  exact ⟨hz, by rw [hz]; rfl⟩

/-- Lifespan column of the `objects` row with this cid, when present. -/
def lifespanOf (table : List Object) (cid : String) : Option ℚ :=
  (table.find? (fun o => o.cid == cid)).map (fun o => o.lifespan)

/-- The object half of the settle statement (`database.go` lines 117-120):
`INSERT INTO objects (cid, sizegb, pinned_at, lifespan) VALUES (...)
ON CONFLICT (cid) DO UPDATE SET lifespan = objects.lifespan + make_interval(...)`.
A new cid inserts a row with `lifespan = durSecs`; an existing cid adds
`durSecs` to its current lifespan (its other columns are untouched). -/
def upsertObject (table : List Object) (cid : String) (sizegb : ℚ)
    (now : ℚ) (durSecs : ℚ) : List Object :=
  if table.any (fun o => o.cid == cid) then
    table.map (fun o =>
      if o.cid == cid then { o with lifespan := o.lifespan + durSecs } else o)
  else
    table ++ [⟨cid, sizegb, now, durSecs⟩]

/-- The payment half of the settle statement (`database.go` lines 112-116):
`UPDATE payments SET processed = true WHERE order_id = $1`, on one row. -/
def markProcessed (oid : String) (p : Payment) : Payment :=
  if p.orderId == oid then { p with processed := true } else p

theorem lifespanOf_map_add (table : List Object) (cid : String) (d : ℚ) :
    lifespanOf (table.map (fun o =>
        if o.cid == cid then { o with lifespan := o.lifespan + d } else o)) cid
      = (lifespanOf table cid).map (fun L => L + d) := by
  have hcomp : ((fun o : Object => o.cid == cid) ∘ (fun o : Object =>
      if o.cid == cid then { o with lifespan := o.lifespan + d } else o))
      = (fun o : Object => o.cid == cid) := by
    funext o
    by_cases hoc : o.cid = cid <;> simp [hoc]
  simp only [lifespanOf, List.find?_map, hcomp]
  rcases hfind : List.find? (fun o : Object => o.cid == cid) table with _ | o
  · simp
  · have hp := List.find?_some hfind
    have hoc : o.cid = cid := by simpa using hp
    simp [hoc]

theorem lifespanOf_append_new (table : List Object) (cid : String) (s t d : ℚ)
    (h : table.any (fun o => o.cid == cid) = false) :
    lifespanOf table cid = none
    ∧ lifespanOf (table ++ [⟨cid, s, t, d⟩]) cid = some d := by
  induction table with
  | nil =>
    constructor
    · simp [lifespanOf]
    · simp [lifespanOf, List.find?_cons]
  | cons o rest ih =>
    simp only [List.any_cons, Bool.or_eq_false_iff] at h
    obtain ⟨ih1, ih2⟩ := ih h.2
    constructor
    · simp only [lifespanOf, List.find?_cons, h.1]
      simpa [lifespanOf] using ih1
    · simp only [List.cons_append, lifespanOf, List.find?_cons, h.1]
      simpa [lifespanOf] using ih2

theorem lifespanOf_upsert (table : List Object) (cid : String) (s t d : ℚ) :
    lifespanOf (upsertObject table cid s t d) cid
      = some ((lifespanOf table cid).getD 0 + d) := by
  by_cases hany : table.any (fun o => o.cid == cid) = true
  · have hsome : (table.find? (fun o => o.cid == cid)).isSome := by
      rcases List.any_eq_true.mp hany with ⟨x, hx, hpx⟩
      exact List.find?_isSome.mpr ⟨x, hx, hpx⟩
    rcases Option.isSome_iff_exists.mp hsome with ⟨ofound, hfound⟩
    have hbranch : upsertObject table cid s t d = table.map (fun o =>
        if o.cid == cid then { o with lifespan := o.lifespan + d } else o) := by
      simp [upsertObject, hany]
    rw [hbranch, lifespanOf_map_add]
    simp [lifespanOf, hfound]
  · have hfalse : table.any (fun o => o.cid == cid) = false := by
      simpa using hany
    obtain ⟨h1, h2⟩ := lifespanOf_append_new table cid s t d hfalse
    have hbranch : upsertObject table cid s t d = table ++ [⟨cid, s, t, d⟩] := by
      simp [upsertObject, hfalse]
    rw [hbranch, h2, h1]
    simp

/-- C4: the settle write is an upsert-merge: a new cid is inserted with
`lifespan = duration`, an existing cid gets `duration` added to its
lifespan (never replaced, and never decreased for a nonnegative duration);
consequently two successful settlements of durations `d1` and `d2`, in
either order, leave the cid's lifespan at its initial value (0 when absent)
plus `d1` plus `d2`. -/
theorem upsert_merge_adds_lifespans (table : List Object) (cid : String)
    (s t d s1 t1 d1 s2 t2 d2 : ℚ) (hd : 0 ≤ d) :
    lifespanOf (upsertObject table cid s t d) cid
      = some ((lifespanOf table cid).getD 0 + d)
    ∧ (lifespanOf table cid).getD 0
        ≤ (lifespanOf (upsertObject table cid s t d) cid).getD 0
    ∧ lifespanOf (upsertObject (upsertObject table cid s1 t1 d1) cid s2 t2 d2) cid
        = some ((lifespanOf table cid).getD 0 + (d1 + d2))
    ∧ lifespanOf (upsertObject (upsertObject table cid s2 t2 d2) cid s1 t1 d1) cid
        = lifespanOf (upsertObject (upsertObject table cid s1 t1 d1) cid s2 t2 d2) cid := by
  refine ⟨lifespanOf_upsert table cid s t d, ?_, ?_, ?_⟩
  · rw [lifespanOf_upsert table cid s t d]
    simp only [Option.getD_some]
    linarith
  · rw [lifespanOf_upsert, lifespanOf_upsert]
    simp only [Option.getD_some]
    ring_nf
  · rw [lifespanOf_upsert, lifespanOf_upsert, lifespanOf_upsert, lifespanOf_upsert]
    simp only [Option.getD_some]
    ring_nf

/-- Witness for C4 on a concrete one-row table. -/
theorem upsert_merge_adds_lifespans_witness :
    (0 : ℚ) ≤ 36
    ∧ (lifespanOf (upsertObject [⟨"c1", 2, 0, 100⟩] "c1" 2 0 36) "c1"
        = some ((lifespanOf [⟨"c1", 2, 0, 100⟩] "c1").getD 0 + 36)
      ∧ (lifespanOf [⟨"c1", 2, 0, 100⟩] "c1").getD 0
          ≤ (lifespanOf (upsertObject [⟨"c1", 2, 0, 100⟩] "c1" 2 0 36) "c1").getD 0
      ∧ lifespanOf (upsertObject
            (upsertObject [⟨"c1", 2, 0, 100⟩] "c1" 3 1 7) "c1" 4 2 8) "c1"
          = some ((lifespanOf [⟨"c1", 2, 0, 100⟩] "c1").getD 0 + (7 + 8))
      ∧ lifespanOf (upsertObject
            (upsertObject [⟨"c1", 2, 0, 100⟩] "c1" 4 2 8) "c1" 3 1 7) "c1"
          = lifespanOf (upsertObject
            (upsertObject [⟨"c1", 2, 0, 100⟩] "c1" 3 1 7) "c1" 4 2 8) "c1") :=
  ⟨by norm_num,
    upsert_merge_adds_lifespans [⟨"c1", 2, 0, 100⟩] "c1" 2 0 36 3 1 7 4 2 8 (by norm_num)⟩

/-- C9: every Settlement Job mutation of a payment row preserves the
invariants: the give-up marking sets `givenUp` and `processed` together,
so `givenUp implies processed` is preserved by the give-up marking, by the
whole claim statement, and by the settle statement, and none of them ever
resets `processed` from true to false. -/
theorem payment_invariants_preserved (p q : Payment) (oid : String)
    (hInv : p.givenUp = true → p.processed = true) (hq : q.processed = true) :
    ((giveupRow p).givenUp = true → (giveupRow p).processed = true)
    ∧ ((claimRow p).1.givenUp = true → (claimRow p).1.processed = true)
    ∧ ((markProcessed oid p).givenUp = true → (markProcessed oid p).processed = true)
    ∧ (5 < p.tries → (giveupRow p).givenUp = true ∧ (giveupRow p).processed = true)
    ∧ (giveupRow q).processed = true
    ∧ (claimRow q).1.processed = true
    ∧ (markProcessed oid q).processed = true := by
  have hflag : (claimRow p).1.givenUp = (giveupRow p).givenUp
      ∧ (claimRow p).1.processed = (giveupRow p).processed := by
    by_cases hgp : (giveupRow p).processed
    · simp [claimRow, hgp]
    · simp [claimRow, hgp]
  have hgiveup : ∀ r : Payment, r.givenUp = true → r.processed = true →
      (giveupRow r).givenUp = true → (giveupRow r).processed = true := by
    intro r _ hrp _
    by_cases h6 : r.tries > 5 <;> simp [giveupRow, h6, hrp]
  have hginv : (giveupRow p).givenUp = true → (giveupRow p).processed = true := by
    by_cases h6 : p.tries > 5
    · simp [giveupRow, h6]
    · simp only [giveupRow, if_neg h6]
      exact hInv
  refine ⟨hginv, ?_, ?_, ?_, ?_, ?_, ?_⟩
  · rw [hflag.1, hflag.2]
    exact hginv
  · by_cases hm : (p.orderId == oid) = true
    · simp [markProcessed, hm]
    · simp only [markProcessed, if_neg hm]
      exact hInv
  · intro h6
    simp [giveupRow, h6]
  · by_cases h6 : q.tries > 5 <;> simp [giveupRow, h6, hq]
  · have hgq : (giveupRow q).processed = true := by
      by_cases h6 : q.tries > 5 <;> simp [giveupRow, h6, hq]
    simp [claimRow, hgq]
  · by_cases hm : (q.orderId == oid) = true
    · simp [markProcessed, hm]
    · simp only [markProcessed, if_neg hm]
      exact hq

/-- Witness for C9 at concrete rows. -/
theorem payment_invariants_preserved_witness :
    ((⟨"o1", "c1", "t", 50, false, 2, false⟩ : Payment).givenUp = true →
      (⟨"o1", "c1", "t", 50, false, 2, false⟩ : Payment).processed = true)
    ∧ (⟨"o2", "c2", "t", 60, true, 6, false⟩ : Payment).processed = true
    ∧ (((giveupRow ⟨"o1", "c1", "t", 50, false, 2, false⟩).givenUp = true →
        (giveupRow ⟨"o1", "c1", "t", 50, false, 2, false⟩).processed = true)
      ∧ ((claimRow ⟨"o1", "c1", "t", 50, false, 2, false⟩).1.givenUp = true →
        (claimRow ⟨"o1", "c1", "t", 50, false, 2, false⟩).1.processed = true)
      ∧ ((markProcessed "o1" ⟨"o1", "c1", "t", 50, false, 2, false⟩).givenUp = true →
        (markProcessed "o1" ⟨"o1", "c1", "t", 50, false, 2, false⟩).processed = true)
      ∧ (5 < (⟨"o1", "c1", "t", 50, false, 2, false⟩ : Payment).tries →
        (giveupRow ⟨"o1", "c1", "t", 50, false, 2, false⟩).givenUp = true
        ∧ (giveupRow ⟨"o1", "c1", "t", 50, false, 2, false⟩).processed = true)
      ∧ (giveupRow ⟨"o2", "c2", "t", 60, true, 6, false⟩).processed = true
      ∧ (claimRow ⟨"o2", "c2", "t", 60, true, 6, false⟩).1.processed = true
      ∧ (markProcessed "o1" ⟨"o2", "c2", "t", 60, true, 6, false⟩).processed = true) :=
  ⟨by decide, by decide,
    payment_invariants_preserved ⟨"o1", "c1", "t", 50, false, 2, false⟩
      ⟨"o2", "c2", "t", 60, true, 6, false⟩ "o1" (by decide) (by decide)⟩

/-- The Go zero value of the `Payment` struct (`p := Payment{}`,
`database.go` line 53). -/
def emptyPayment : Payment := ⟨"", "", "", 0, false, 0, false⟩

/-- Model of `fetchPayment` (`database.go` lines 52-62): the query
`SELECT order_id, paid_at, amount, processed, tries, given_up FROM payments
WHERE order_id = $1` is scanned into a zero-valued `Payment`; only the six
selected columns are assigned, and the select list contains no `cid`, so
that field keeps the zero value of its type. -/
def fetchPayment (stored : Payment) : Payment :=
  { emptyPayment with
      orderId := stored.orderId
      paidAt := stored.paidAt
      amount := stored.amount
      processed := stored.processed
      tries := stored.tries
      givenUp := stored.givenUp }

/-- C10: the `Payment` value returned by `fetchPayment` carries an empty
`CID` whatever cid the stored row has, because the lookup query does not
select the cid column; the other six fields come from the stored row. -/
theorem fetchPayment_cid_empty (stored : Payment) :
    (fetchPayment stored).cid = ""
    ∧ (fetchPayment stored).orderId = stored.orderId
    ∧ (fetchPayment stored).paidAt = stored.paidAt
    ∧ (fetchPayment stored).amount = stored.amount
    ∧ (fetchPayment stored).processed = stored.processed
    ∧ (fetchPayment stored).tries = stored.tries
    ∧ (fetchPayment stored).givenUp = stored.givenUp :=
  ⟨rfl, rfl, rfl, rfl, rfl, rfl, rfl⟩

/-- Whether an `objects` row is past its retention window at the selection
query of `eraseEnded` (`database.go` line 149):
`SELECT cid FROM objects WHERE pinned_at + lifespan < now()`. -/
def expiredAt (now : ℚ) (o : Object) : Bool :=
  decide (o.pinnedAt + o.lifespan < now)

/-- World state the Reclamation Job touches: the `objects` table and the
unpin calls issued so far, in order. -/
structure ReclaimState where
  objects : List Object
  unpinCalls : List String
deriving DecidableEq, Repr

/-- The reclamation loop of `eraseEnded` (`database.go` lines 156-168):
for each selected cid, sequentially: call unpin, and on unpin failure
return that error at once; otherwise run the DELETE statement, and on
delete failure return that error at once (the row stays); otherwise the
row is gone and the loop continues.  Returns the final state and the
error surfaced to the caller, if any. -/
def eraseLoop (unpinF : String → Except Err Unit) (delErr : String → Option Err) :
    List String → ReclaimState → ReclaimState × Option Err
  | [], st => (st, none)
  | c :: rest, st =>
    match unpinF c with
    | Except.error e => (st, some e)
    | Except.ok _ =>
      match delErr c with
      | some e => (⟨st.objects, st.unpinCalls ++ [c]⟩, some e)
      | none =>
          eraseLoop unpinF delErr rest
            ⟨st.objects.filter (fun o => !(o.cid == c)), st.unpinCalls ++ [c]⟩

/-- Model of `eraseEnded` (`database.go` lines 146-171): select the cids of
the expired rows, then run the reclamation loop over them in selection
order, starting from the current table with no unpin call yet made. -/
def eraseEnded (unpinF : String → Except Err Unit) (delErr : String → Option Err)
    (now : ℚ) (table : List Object) : ReclaimState × Option Err :=
  eraseLoop unpinF delErr ((table.filter (expiredAt now)).map (fun o => o.cid)) ⟨table, []⟩

theorem eraseLoop_ok (unpinF : String → Except Err Unit) (delErr : String → Option Err)
    (cids : List String) (st : ReclaimState)
    (h : (eraseLoop unpinF delErr cids st).2 = none) :
    (∀ o, o ∈ (eraseLoop unpinF delErr cids st).1.objects
        ↔ o ∈ st.objects ∧ o.cid ∉ cids)
    ∧ (eraseLoop unpinF delErr cids st).1.unpinCalls = st.unpinCalls ++ cids := by
  induction cids generalizing st with
  | nil => simp [eraseLoop]
  | cons c rest ih =>
    rcases hu : unpinF c with e | u
    · simp [eraseLoop, hu] at h
    · rcases hd : delErr c with _ | e
      · have hstep : eraseLoop unpinF delErr (c :: rest) st
            = eraseLoop unpinF delErr rest
                ⟨st.objects.filter (fun o => !(o.cid == c)), st.unpinCalls ++ [c]⟩ := by
          simp [eraseLoop, hu, hd]
        rw [hstep] at h ⊢
        obtain ⟨ih1, ih2⟩ := ih _ h
        constructor
        · intro o
          rw [ih1 o]
          simp only [List.mem_filter, List.mem_cons, not_or, Bool.not_eq_eq_eq_not,
            Bool.not_true, beq_eq_false_iff_ne, ne_eq]
          tauto
        · rw [ih2]
          simp
      · simp [eraseLoop, hu, hd] at h

theorem eraseLoop_fail (unpinF : String → Except Err Unit) (delErr : String → Option Err)
    (c : String) (rest : List String) (e : Err)
    (hfail : unpinF c = Except.error e ∨ (unpinF c = Except.ok () ∧ delErr c = some e)) :
    ∀ (done : List String) (st : ReclaimState),
      (∀ x ∈ done, unpinF x = Except.ok () ∧ delErr x = none) →
      (eraseLoop unpinF delErr (done ++ c :: rest) st).2 = some e
      ∧ (∀ o, o ∈ (eraseLoop unpinF delErr (done ++ c :: rest) st).1.objects
          ↔ o ∈ st.objects ∧ o.cid ∉ done)
      ∧ (unpinF c = Except.error e →
          (eraseLoop unpinF delErr (done ++ c :: rest) st).1.unpinCalls
            = st.unpinCalls ++ done)
      ∧ (unpinF c = Except.ok () →
          (eraseLoop unpinF delErr (done ++ c :: rest) st).1.unpinCalls
            = st.unpinCalls ++ (done ++ [c])) := by
  intro done
  induction done with
  | nil =>
    intro st _
    rcases hfail with hu | ⟨hu, hd⟩
    · refine ⟨by simp [eraseLoop, hu], by simp [eraseLoop, hu], by simp [eraseLoop, hu], ?_⟩
      intro hok
      rw [hok] at hu
      cases hu
    · refine ⟨by simp [eraseLoop, hu, hd], by simp [eraseLoop, hu, hd], ?_,
        by simp [eraseLoop, hu, hd]⟩
      intro herr
      rw [herr] at hu
      cases hu
  | cons x done' ih =>
    intro st hdone
    obtain ⟨hux, hdx⟩ := hdone x (by simp)
    have hdone' : ∀ y ∈ done', unpinF y = Except.ok () ∧ delErr y = none :=
      fun y hy => hdone y (by simp [hy])
    have hstep : eraseLoop unpinF delErr ((x :: done') ++ c :: rest) st
        = eraseLoop unpinF delErr (done' ++ c :: rest)
            ⟨st.objects.filter (fun o => !(o.cid == x)), st.unpinCalls ++ [x]⟩ := by
      simp [eraseLoop, hux, hdx]
    obtain ⟨ih1, ih2, ih3, ih4⟩ :=
      ih ⟨st.objects.filter (fun o => !(o.cid == x)), st.unpinCalls ++ [x]⟩ hdone'
    rw [hstep]
    refine ⟨ih1, ?_, ?_, ?_⟩
    · intro o
      rw [ih2 o]
      simp only [List.mem_filter, List.mem_cons, not_or, Bool.not_eq_eq_eq_not,
        Bool.not_true, beq_eq_false_iff_ne, ne_eq]
      tauto
    · intro herr
      rw [ih3 herr]
      simp
    · intro hok
      rw [ih4 hok]
      simp

theorem expired_cids_nodup (now : ℚ) (table : List Object)
    (hnd : (table.map (fun o => o.cid)).Nodup) :
    ((table.filter (expiredAt now)).map (fun o => o.cid)).Nodup :=
  ((List.filter_sublist table).map (fun o => o.cid)).nodup hnd

/-- C6: after a run of `eraseEnded` that returns no error, every object
that was expired at selection time has its row absent from the table and
exactly one unpin call was made for its cid, while an object not yet
expired keeps its row and gets no unpin call.  `cid` is the primary key of
`objects`, hence the `Nodup` hypothesis. -/
theorem erase_reclaims_expired (unpinF : String → Except Err Unit)
    (delErr : String → Option Err) (now : ℚ) (table : List Object)
    (hnd : (table.map (fun o => o.cid)).Nodup)
    (hok : (eraseEnded unpinF delErr now table).2 = none)
    (o : Object) (ho : o ∈ table) :
    (expiredAt now o = true →
      o ∉ (eraseEnded unpinF delErr now table).1.objects
      ∧ (eraseEnded unpinF delErr now table).1.unpinCalls.count o.cid = 1)
    ∧ (expiredAt now o = false →
      o ∈ (eraseEnded unpinF delErr now table).1.objects
      ∧ o.cid ∉ (eraseEnded unpinF delErr now table).1.unpinCalls) := by
  have hndc := expired_cids_nodup now table hnd
  have heq : eraseEnded unpinF delErr now table
      = eraseLoop unpinF delErr ((table.filter (expiredAt now)).map (fun o => o.cid))
          ⟨table, []⟩ := rfl
  rw [heq] at hok ⊢
  obtain ⟨hmem, hcalls⟩ := eraseLoop_ok unpinF delErr
    ((table.filter (expiredAt now)).map (fun o => o.cid)) ⟨table, []⟩ hok
  constructor
  · intro hexp
    have hin : o.cid ∈ (table.filter (expiredAt now)).map (fun o => o.cid) :=
      List.mem_map_of_mem _ (List.mem_filter.mpr ⟨ho, hexp⟩)
    constructor
    · intro habs
      exact ((hmem o).mp habs).2 hin
    · rw [hcalls]
      simpa using List.count_eq_one_of_mem hndc hin
  · intro hexp
    have hnin : o.cid ∉ (table.filter (expiredAt now)).map (fun o => o.cid) := by
      intro habs
      rcases List.mem_map.mp habs with ⟨x, hx, hxo⟩
      have hfx := List.mem_filter.mp hx
      have hxeq : x = o := nodup_map_eq hnd hfx.1 ho hxo
      rw [hxeq] at hfx
      rw [hfx.2] at hexp
      cases hexp
    constructor
    · exact (hmem o).mpr ⟨ho, hnin⟩
    · rw [hcalls]
      simpa using hnin

/-- Witness for C6: table with one expired and one live object, oracles
that always succeed. -/
theorem erase_reclaims_expired_witness :
    (([⟨"a", 1, 0, 5⟩, ⟨"b", 1, 0, 100⟩] : List Object).map
        (fun o => o.cid)).Nodup
    ∧ (eraseEnded (fun _ => Except.ok ()) (fun _ => none) 10
        [⟨"a", 1, 0, 5⟩, ⟨"b", 1, 0, 100⟩]).2 = none
    ∧ (⟨"a", 1, 0, 5⟩ : Object) ∈ ([⟨"a", 1, 0, 5⟩, ⟨"b", 1, 0, 100⟩] : List Object)
    ∧ ((expiredAt 10 ⟨"a", 1, 0, 5⟩ = true →
        (⟨"a", 1, 0, 5⟩ : Object) ∉ (eraseEnded (fun _ => Except.ok ()) (fun _ => none) 10
            [⟨"a", 1, 0, 5⟩, ⟨"b", 1, 0, 100⟩]).1.objects
        ∧ (eraseEnded (fun _ => Except.ok ()) (fun _ => none) 10
            [⟨"a", 1, 0, 5⟩, ⟨"b", 1, 0, 100⟩]).1.unpinCalls.count
              (⟨"a", 1, 0, 5⟩ : Object).cid = 1)
      ∧ (expiredAt 10 ⟨"a", 1, 0, 5⟩ = false →
        (⟨"a", 1, 0, 5⟩ : Object) ∈ (eraseEnded (fun _ => Except.ok ()) (fun _ => none) 10
            [⟨"a", 1, 0, 5⟩, ⟨"b", 1, 0, 100⟩]).1.objects
        ∧ (⟨"a", 1, 0, 5⟩ : Object).cid ∉ (eraseEnded (fun _ => Except.ok ())
            (fun _ => none) 10 [⟨"a", 1, 0, 5⟩, ⟨"b", 1, 0, 100⟩]).1.unpinCalls)) := by
  have e1 : expiredAt 10 (⟨"a", 1, 0, 5⟩ : Object) = true := by
    simp only [expiredAt, decide_eq_true_eq]
    norm_num
  have e2 : expiredAt 10 (⟨"b", 1, 0, 100⟩ : Object) = false := by
    simp only [expiredAt, decide_eq_false_iff_not]
    norm_num
  have hok : (eraseEnded (fun _ => Except.ok ()) (fun _ => none) 10
      [⟨"a", 1, 0, 5⟩, ⟨"b", 1, 0, 100⟩]).2 = none := by
    simp [eraseEnded, eraseLoop, e1, e2]
  refine ⟨by decide, hok, by decide, ?_⟩
  exact erase_reclaims_expired (fun _ => Except.ok ()) (fun _ => none) 10
    [⟨"a", 1, 0, 5⟩, ⟨"b", 1, 0, 100⟩] (by decide) hok ⟨"a", 1, 0, 5⟩ (by decide)

/-- C7: the Reclamation Job works through the expired cids sequentially in
selection order; when the first failure happens at cid `c` (either its
unpin call fails, or its unpin succeeds and its delete fails), that error
is returned to the caller, the objects reclaimed before `c` stay deleted
(no rollback), every other object — including `c`, whose row is deleted
only after a successful unpin AND delete — is still present, and no unpin
call was made for any cid after `c`. -/
theorem erase_halts_on_first_failure (unpinF : String → Except Err Unit)
    (delErr : String → Option Err) (now : ℚ) (table : List Object)
    (done : List String) (c : String) (rest : List String) (e : Err)
    (hnd : (table.map (fun o => o.cid)).Nodup)
    (hsel : (table.filter (expiredAt now)).map (fun o => o.cid) = done ++ c :: rest)
    (hdone : ∀ x ∈ done, unpinF x = Except.ok () ∧ delErr x = none)
    (hfail : unpinF c = Except.error e ∨ (unpinF c = Except.ok () ∧ delErr c = some e)) :
    (eraseEnded unpinF delErr now table).2 = some e
    ∧ (∀ o ∈ table, o.cid ∈ done →
        o ∉ (eraseEnded unpinF delErr now table).1.objects)
    ∧ (∀ o ∈ table, o.cid ∉ done →
        o ∈ (eraseEnded unpinF delErr now table).1.objects)
    ∧ (∀ r ∈ rest, r ∉ (eraseEnded unpinF delErr now table).1.unpinCalls) := by
  have hndc := expired_cids_nodup now table hnd
  rw [hsel] at hndc
  have heq : eraseEnded unpinF delErr now table
      = eraseLoop unpinF delErr (done ++ c :: rest) ⟨table, []⟩ := by
    simp only [eraseEnded, hsel]
  obtain ⟨h1, h2, h3, h4⟩ := eraseLoop_fail unpinF delErr c rest e hfail done ⟨table, []⟩ hdone
  rw [heq]
  refine ⟨h1, ?_, ?_, ?_⟩
  · intro o ho hdo habs
    exact ((h2 o).mp habs).2 hdo
  · intro o ho hdo
    exact (h2 o).mpr ⟨ho, hdo⟩
  · intro r hr
    have hrdone : r ∉ done := by
      intro habs
      rcases List.nodup_append.mp hndc with ⟨_, _, hdisj⟩
      exact hdisj habs (by simp [hr])
    have hrc : r ≠ c := by
      intro habs
      rcases List.nodup_append.mp hndc with ⟨_, hcr, _⟩
      rcases List.nodup_cons.mp hcr with ⟨hcnot, _⟩
      rw [habs] at hr
      exact hcnot hr
    rcases hfail with hu | ⟨hu, _⟩
    · rw [h3 hu]
      simpa using hrdone
    · rw [h4 hu]
      simp only [List.nil_append, List.mem_append, List.mem_singleton]
      rintro (habs | habs)
      · exact hrdone habs
      · exact hrc habs

/-- Witness for C7: two expired objects, unpin fails on the second. -/
theorem erase_halts_on_first_failure_witness :
    (([⟨"a", 1, 0, 5⟩, ⟨"b", 1, 0, 6⟩, ⟨"z", 1, 0, 100⟩] : List Object).map
        (fun o => o.cid)).Nodup
    ∧ (([⟨"a", 1, 0, 5⟩, ⟨"b", 1, 0, 6⟩, ⟨"z", 1, 0, 100⟩] : List Object).filter
        (expiredAt 10)).map (fun o => o.cid) = ["a"] ++ "b" :: []
    ∧ (∀ x ∈ ["a"], (fun y => if y = "b" then Except.error "boom" else Except.ok ()) x
          = Except.ok () ∧ (fun _ : String => (none : Option Err)) x = none)
    ∧ ((eraseEnded (fun y => if y = "b" then Except.error "boom" else Except.ok ())
          (fun _ => none) 10
          [⟨"a", 1, 0, 5⟩, ⟨"b", 1, 0, 6⟩, ⟨"z", 1, 0, 100⟩]).2 = some "boom"
      ∧ (∀ o ∈ ([⟨"a", 1, 0, 5⟩, ⟨"b", 1, 0, 6⟩, ⟨"z", 1, 0, 100⟩] : List Object),
          o.cid ∈ ["a"] →
          o ∉ (eraseEnded (fun y => if y = "b" then Except.error "boom" else Except.ok ())
            (fun _ => none) 10
            [⟨"a", 1, 0, 5⟩, ⟨"b", 1, 0, 6⟩, ⟨"z", 1, 0, 100⟩]).1.objects)
      ∧ (∀ o ∈ ([⟨"a", 1, 0, 5⟩, ⟨"b", 1, 0, 6⟩, ⟨"z", 1, 0, 100⟩] : List Object),
          o.cid ∉ ["a"] →
          o ∈ (eraseEnded (fun y => if y = "b" then Except.error "boom" else Except.ok ())
            (fun _ => none) 10
            [⟨"a", 1, 0, 5⟩, ⟨"b", 1, 0, 6⟩, ⟨"z", 1, 0, 100⟩]).1.objects)
      ∧ (∀ r ∈ ([] : List String),
          r ∉ (eraseEnded (fun y => if y = "b" then Except.error "boom" else Except.ok ())
            (fun _ => none) 10
            [⟨"a", 1, 0, 5⟩, ⟨"b", 1, 0, 6⟩, ⟨"z", 1, 0, 100⟩]).1.unpinCalls)) := by
  have e1 : expiredAt 10 (⟨"a", 1, 0, 5⟩ : Object) = true := by
    simp only [expiredAt, decide_eq_true_eq]
    norm_num
  have e2 : expiredAt 10 (⟨"b", 1, 0, 6⟩ : Object) = true := by
    simp only [expiredAt, decide_eq_true_eq]
    norm_num
  have e3 : expiredAt 10 (⟨"z", 1, 0, 100⟩ : Object) = false := by
    simp only [expiredAt, decide_eq_false_iff_not]
    norm_num
  have hsel : (([⟨"a", 1, 0, 5⟩, ⟨"b", 1, 0, 6⟩, ⟨"z", 1, 0, 100⟩] : List Object).filter
      (expiredAt 10)).map (fun o => o.cid) = ["a"] ++ "b" :: [] := by
    simp [e1, e2, e3]
  have hdone : ∀ x ∈ ["a"],
      (fun y => if y = "b" then Except.error "boom" else Except.ok ()) x = Except.ok ()
      ∧ (fun _ : String => (none : Option Err)) x = none := by
    intro x hx
    simp only [List.mem_singleton] at hx
    subst hx
    constructor
    · simp
    · rfl
  have hfail : (fun y => if y = "b" then Except.error "boom" else Except.ok ()) "b"
      = Except.error "boom" := by simp
  refine ⟨by decide, hsel, hdone, ?_⟩
  exact erase_halts_on_first_failure
    (fun y => if y = "b" then Except.error "boom" else Except.ok ())
    (fun _ => none) 10 [⟨"a", 1, 0, 5⟩, ⟨"b", 1, 0, 6⟩, ⟨"z", 1, 0, 100⟩]
    ["a"] "b" [] "boom" (by decide) hsel hdone (Or.inl hfail)
